import Mathlib

/-!
Verification of the myStockWatcher market-data core.

This file gives a shallow embedding, in Lean 4, of the parts of the
`backend/app` package that the specification talks about:

* `providers/base.py` — the per-provider health state machine
  (`ProviderHealth`) and the `StockData` validity check;
* `providers/coordinator.py` — `DataSourceCoordinator.get_realtime_price`
  with its priority-ordered fallback;
* `services/__init__.py` — trading-time decisions
  (`is_cn_trading_time`, `is_real_trading_time`), the per-stock MA
  enrichment (`enrich_stock_with_status`), the current-price fallback
  chain, `generate_daily_snapshots` and the `get_daily_report` summary;
* `services/indicators.py` — `calc_ma` and `calc_rsi`.

Machine reals (Python floats) are embedded as exact rationals `ℚ`;
`round(x, n)` is embedded as round-half-to-even on `x * 10^n`, which is
the idealised semantics of Python's `round`.  Code that can raise an
exception is embedded with `Except Unit`.  Wall-clock instants are
rationals (seconds); the Beijing / New-York clock readings that the code
obtains from `datetime.now(tz)` are fields of an explicit environment.
-/

set_option maxHeartbeats 1000000

namespace StockWatcher

/-! ## Python `round` (banker's rounding) on rationals -/

/-- Round-half-to-even of a rational to an integer, the tie-breaking rule
used by Python's built-in `round`. -/
def roundHalfEven (x : ℚ) : ℤ :=
  if x - ⌊x⌋ = 1 / 2 then (if Even ⌊x⌋ then ⌊x⌋ else ⌊x⌋ + 1) else round x

/-- Embedding of Python `round(x, n)` for rationals. -/
def pyRound (x : ℚ) (n : ℕ) : ℚ :=
  (roundHalfEven (x * 10 ^ n) : ℚ) / 10 ^ n

/-- `round(x, 2)` as used throughout the MA computations. -/
def pyRound2 (x : ℚ) : ℚ := pyRound x 2

/-- `round(x, 1)` as used for the daily-report reached rate. -/
def pyRound1 (x : ℚ) : ℚ := pyRound x 1

/-! ## `providers/base.py` — provider health state machine

`ProviderHealth.is_available` both reports availability and, when the
cooldown has elapsed, mutates the record back to `HEALTHY`; the embedding
returns the boolean together with the updated record.  `datetime.now()`
becomes an explicit `now : ℚ` argument (seconds). -/

/-- `ProviderStatus` from `providers/base.py`. -/
inductive ProviderStatus where
  | healthy
  | degraded
  | cooling
  | disabled
  deriving DecidableEq, Repr

/-- `ProviderHealth` from `providers/base.py` (timestamps in seconds). -/
structure ProviderHealth where
  status : ProviderStatus := .healthy
  consecutive_failures : ℕ := 0
  last_success_time : Option ℚ := none
  last_failure_time : Option ℚ := none
  cooldown_until : Option ℚ := none
  total_requests : ℕ := 0
  total_failures : ℕ := 0
  deriving DecidableEq, Repr

namespace ProviderHealth

/-- `ProviderHealth.is_available`: the returned boolean together with the
state after the call (the Python method mutates `self` when a cooldown
has expired). -/
def is_available (h : ProviderHealth) (now : ℚ) : Bool × ProviderHealth :=
  if h.status = .disabled then (false, h)
  else if h.status = .cooling then
    match h.cooldown_until with
    | some t =>
        if now < t then (false, h)
        else (true, { h with status := .healthy, cooldown_until := none,
                             consecutive_failures := 0 })
    | none => (true, { h with status := .healthy, cooldown_until := none,
                              consecutive_failures := 0 })
  else (true, h)

/-- `ProviderHealth.record_success`. -/
def record_success (h : ProviderHealth) (now : ℚ) : ProviderHealth :=
  let h1 := { h with last_success_time := some now,
                     consecutive_failures := 0,
                     total_requests := h.total_requests + 1 }
  if h1.status = .degraded then { h1 with status := .healthy } else h1

/-- `ProviderHealth.record_failure` (cooldown in minutes, default 5). -/
def record_failure (h : ProviderHealth) (now : ℚ)
    (cooldown_minutes : ℕ := 5) : ProviderHealth :=
  let h1 := { h with last_failure_time := some now,
                     consecutive_failures := h.consecutive_failures + 1,
                     total_requests := h.total_requests + 1,
                     total_failures := h.total_failures + 1 }
  if h1.consecutive_failures ≥ 3 then
    { h1 with status := .cooling,
              cooldown_until := some (now + 60 * cooldown_minutes) }
  else
    { h1 with status := .degraded }

end ProviderHealth

/-! ## `providers/coordinator.py` — `get_realtime_price` fallback

A provider call is one of: raising an exception, returning `None`, or
returning a `StockData`.  What `is_available()` returns at the moment the
coordinator loop reaches the provider is the `avail` field.  The
coordinator's constructor sorts the provider list by ascending
`PRIORITY` (Python `list.sort` with `__lt__` comparing `PRIORITY`). -/

/-- `StockData` from `providers/base.py` (the fields
`get_realtime_price` consumers look at). -/
structure StockData where
  symbol : String
  name : Option String := none
  current_price : Option ℚ := none
  provider_name : String := ""
  deriving DecidableEq, Repr

/-- `StockData.is_valid`: a non-`None`, strictly positive price. -/
def StockData.is_valid (d : StockData) : Bool :=
  match d.current_price with
  | some p => decide (0 < p)
  | none => false

/-- Result of one `provider.get_realtime_price` call inside the
coordinator loop: an exception, or a returned `Optional[StockData]`. -/
inductive CallOutcome where
  | exc
  | ret (d : Option StockData)
  deriving DecidableEq, Repr

/-- A provider as the coordinator loop sees it. -/
structure Provider where
  PRIORITY : ℕ
  NAME : String
  avail : Bool
  call : CallOutcome
  deriving DecidableEq, Repr

/-- The data a provider's call contributes when it counts as a success
(`data and data.is_valid()` in the loop). -/
def Provider.succData (p : Provider) : Option StockData :=
  match p.call with
  | .ret (some d) => if d.is_valid then some d else none
  | _ => none

/-- A provider that the loop would accept: available and returning valid
data. -/
def Provider.succeeds (p : Provider) : Prop :=
  p.avail = true ∧ (p.succData).isSome = true

instance (p : Provider) : Decidable p.succeeds := by
  unfold Provider.succeeds; infer_instance

/-- `FetchResult` from `providers/coordinator.py`. -/
structure FetchResult where
  success : Bool
  data : Option StockData := none
  provider_name : String := ""
  error_message : String := ""
  tried_providers : List String := []
  deriving DecidableEq, Repr

/-- The all-failed message built at the end of `get_realtime_price`. -/
def allFailedMessage (tried : List String) : String :=
  "数据获取失败，请稍后重试。尝试过: " ++ String.intercalate ", " tried

/-- The provider loop of `DataSourceCoordinator.get_realtime_price`,
carrying the `tried_providers` accumulator. -/
def getRealtimePriceGo : List Provider → List String → FetchResult
  | [], tried =>
      { success := false, error_message := allFailedMessage tried,
        tried_providers := tried }
  | p :: rest, tried =>
      if p.avail = false then getRealtimePriceGo rest tried
      else
        let tried' := tried ++ [p.NAME]
        match p.call with
        | .exc => getRealtimePriceGo rest tried'
        | .ret none => getRealtimePriceGo rest tried'
        | .ret (some d) =>
            if d.is_valid then
              { success := true, data := some d, provider_name := p.NAME,
                tried_providers := tried' }
            else getRealtimePriceGo rest tried'

/-- `DataSourceCoordinator.__init__`: providers sorted by ascending
`PRIORITY`. -/
def coordinatorProviders (ps : List Provider) : List Provider :=
  ps.insertionSort (fun a b => a.PRIORITY ≤ b.PRIORITY)

/-- `DataSourceCoordinator.get_realtime_price` on a coordinator built
from the provider pool `ps`. -/
def get_realtime_price (ps : List Provider) : FetchResult :=
  getRealtimePriceGo (coordinatorProviders ps) []

/-- `fetch_realtime_data` in `services/__init__.py` (cache bypassed):
the price it extracts from the coordinator's `FetchResult`; all
providers failing yields `None`. -/
def fetchPriceOf (r : FetchResult) : Option ℚ :=
  if r.success ∧ r.data.isSome then r.data.bind (·.current_price) else none

/-! ## Trading-time decisions (`services/__init__.py`)

`datetime.now(tz)` readings become an explicit environment: the Beijing
and New-York weekday (`0` = Monday) and time-of-day in seconds.
`is_trading_day(db)` consults the database-backed calendar (with
external fallbacks); its verdict for today is the `calTradingDay`
field. -/

/-- The market string computed by `normalize_symbol_for_sina` (always
`"cn"` or `"us"`). -/
inductive Market where
  | cn
  | us
  deriving DecidableEq, Repr

/-- Wall-clock environment for one call. -/
structure ClockEnv where
  bjWeekday : ℕ
  bjSeconds : ℚ
  nyWeekday : ℕ
  nySeconds : ℚ
  calTradingDay : Bool
  deriving DecidableEq, Repr

/-- `is_cn_trading_time`: Beijing weekday and
`[09:30,11:30] ∪ [13:00,15:00]` (inclusive bounds, seconds). -/
def is_cn_trading_time (env : ClockEnv) : Bool :=
  if env.bjWeekday ≥ 5 then false
  else
    decide ((34200 ≤ env.bjSeconds ∧ env.bjSeconds ≤ 41400) ∨
            (46800 ≤ env.bjSeconds ∧ env.bjSeconds ≤ 54000))

/-- `is_us_trading_time`: New-York weekday and `[09:30,16:00]`. -/
def is_us_trading_time (env : ClockEnv) : Bool :=
  if env.nyWeekday ≥ 5 then false
  else decide (34200 ≤ env.nySeconds ∧ env.nySeconds ≤ 57600)

/-- `is_trading_time(market)`. -/
def is_trading_time (market : Market) (env : ClockEnv) : Bool :=
  match market with
  | .cn => is_cn_trading_time env
  | .us => is_us_trading_time env

/-- `is_real_trading_time(market, db)`: session window first, then — for
`cn` and only when a `db` session was passed — the trading-day check. -/
def is_real_trading_time (market : Market) (dbProvided : Bool)
    (env : ClockEnv) : Bool :=
  if ¬ is_trading_time market env then false
  else
    match market, dbProvided with
    | .cn, true => env.calTradingDay
    | _, _ => true

/-- The `is_realtime` flag as `enrich_stock_with_status` (and its
thread-safe twin) computes it: on the forced path, on the
refresh-decision path, and on the invalid-cached-price recovery path it
is `is_real_trading_time`; otherwise it stays `False`.
`cachedPriceTruthy` is `stock.current_price is not None and > 0`. -/
def enrichIsRealtime (force need_refresh cachedPriceTruthy : Bool)
    (market : Market) (dbProvided : Bool) (env : ClockEnv) : Bool :=
  if force then is_real_trading_time market dbProvided env
  else if need_refresh then is_real_trading_time market dbProvided env
  else if ¬ cachedPriceTruthy then is_real_trading_time market dbProvided env
  else false

/-! ## The per-MA computation of `enrich_stock_with_status`

Lines 870–895 of `services/__init__.py`.  `int(re.search(r'\d+',
ma_type).group())` raises `AttributeError` when the token has no digit,
and `sum(final_closes) / ma_period` raises `ZeroDivisionError` when the
extracted period is `0`; both are embedded as `Except.error`. -/

/-- `MAResult` from `schemas` (the default is
`MAResult(reached_target=False)`). -/
structure MAResult where
  ma_price : Option ℚ := none
  reached_target : Bool := false
  price_difference : Option ℚ := none
  price_difference_percent : Option ℚ := none
  deriving DecidableEq, Repr

/-- Python slice `l[-k:]` (for `k = 0` it is the whole list). -/
def lastSlice (l : List ℚ) (k : ℕ) : List ℚ :=
  if k = 0 then l else l.drop (l.length - k)

/-- One iteration of the MA loop: the `MAResult` computed for period `k`
from the current price and the close series used for the call. -/
def computeMAResult (cp? : Option ℚ) (closes? : Option (List ℚ))
    (k : ℕ) : Except Unit MAResult :=
  match cp?, closes? with
  | some cp, some closes =>
      if closes ≠ [] ∧ k ≤ closes.length then
        let final := lastSlice closes k
        -- the `c is not None` filter is the identity on a float list
        if k ≤ final.length then
          if k = 0 then .error ()
          else
            let ma_val := pyRound2 (final.sum / k)
            if 0 < ma_val then
              let diff := cp - ma_val
              .ok { ma_price := some ma_val,
                    reached_target := decide (ma_val ≤ cp),
                    price_difference := some (pyRound2 diff),
                    price_difference_percent :=
                      some (pyRound2 (diff / ma_val * 100)) }
            else .ok {}
        else .ok {}
      else .ok {}
  | _, _ => .ok {}

/-- The arithmetic mean of the last `k` closes, written directly (the
specification's description of `ma_price` before rounding). -/
def maLastMean (closes : List ℚ) (k : ℕ) : ℚ :=
  (closes.drop (closes.length - k)).sum / k

/-- Python `s.split(",")` over the character list. -/
def splitCommaAux : List Char → List Char → List (List Char)
  | [], cur => [cur.reverse]
  | c :: rest, cur =>
      if c = ',' then cur.reverse :: splitCommaAux rest []
      else splitCommaAux rest (c :: cur)

/-- Python `s.split(",")`. -/
def pySplitComma (s : String) : List String :=
  (splitCommaAux s.toList []).map (fun cs => String.mk cs)

/-- Python `s.strip()`: whitespace removed from both ends. -/
def pyStrip (s : String) : String :=
  String.mk
    (((s.toList.dropWhile Char.isWhitespace).reverse.dropWhile
        Char.isWhitespace).reverse)

/-- Parsing of `stock.ma_types` (lines 770–774): split on `,`, strip,
drop empty tokens; a `None` or all-whitespace string gives `[]`. -/
def parseMaTypes (mt? : Option String) : List String :=
  match mt? with
  | some s =>
      if pyStrip s ≠ "" then ((pySplitComma s).map pyStrip).filter (· ≠ "")
      else []
  | none => []

/-- The effective token list: `["MA5"]` substituted when parsing yields
nothing. -/
def effectiveMaTypes (mt? : Option String) : List String :=
  let ts := parseMaTypes mt?
  if ts = [] then ["MA5"] else ts

/-- `re.search(r'\d+', s)`: the first maximal run of digits. -/
def firstDigitRunAux : List Char → Option (List Char)
  | [] => none
  | c :: rest =>
      if c.isDigit then some (c :: rest.takeWhile Char.isDigit)
      else firstDigitRunAux rest

/-- The integer value of the first digit run of `s`, if any. -/
def firstDigitNat (s : String) : Option ℕ :=
  (firstDigitRunAux s.toList).map
    (fun cs => cs.foldl (fun n c => 10 * n + (c.toNat - '0'.toNat)) 0)

/-- Python-dict insertion into an association list: overwrite an
existing key in place, else append. -/
def dictInsert (m : List (String × MAResult)) (k : String)
    (v : MAResult) : List (String × MAResult) :=
  if m.any (·.1 = k) then m.map (fun kv => if kv.1 = k then (k, v) else kv)
  else m ++ [(k, v)]

/-- The MA loop over the tokens, building the `ma_results` dict. -/
def enrichMaResultsGo (cp? : Option ℚ) (closes? : Option (List ℚ)) :
    List String → List (String × MAResult) →
    Except Unit (List (String × MAResult))
  | [], acc => .ok acc
  | t :: rest, acc =>
      match firstDigitNat t with
      | none => .error ()
      | some k => do
          let r ← computeMAResult cp? closes? k
          enrichMaResultsGo cp? closes? rest (dictInsert acc t r)

/-- The `ma_results` mapping `enrich_stock_with_status` builds from the
stock's `ma_types`, the current price and the close series. -/
def enrichMaResults (mt? : Option String) (cp? : Option ℚ)
    (closes? : Option (List ℚ)) : Except Unit (List (String × MAResult)) :=
  enrichMaResultsGo cp? closes? (effectiveMaTypes mt?) []

/-! ## The current-price fallback chain (`enrich_stock_with_status`)

`fetched` is what `fetch_realtime_data` produced (`None` when every
provider failed); `stored` is `stock.current_price`; `closes?` is the
final `kline_closes` list (or `None`).  The returned field is
`current_price or stock.current_price`, with Python truthiness. -/

/-- Python truthiness of an optional number (`None` and `0` are falsy). -/
def pyTruthy (x : Option ℚ) : Bool :=
  match x with
  | some p => p ≠ 0
  | none => false

/-- Python `a or b` on optional numbers. -/
def pyOr (a b : Option ℚ) : Option ℚ := if pyTruthy a then a else b

/-- The `current_price` value of the returned `StockWithStatus`:
fetch-or-cache, then the k-line last-close fallback (lines 864–867),
then `current_price or stock.current_price` (line 943). -/
def enrichCurrentPrice (needFetch : Bool) (fetched stored : Option ℚ)
    (closes? : Option (List ℚ)) : Option ℚ :=
  let cp0 := if needFetch then fetched
             else
               match stored with
               | some p => if p ≤ 0 then fetched else some p
               | none => fetched
  let cp1 := match cp0 with
             | none => closes?.bind List.getLast?
             | some p => some p
  pyOr cp1 stored

/-- The HTTP boundary in `main.py` (`update_stock_price_by_symbol`): a
`503` is raised exactly when the enriched `current_price` is `None`. -/
def updatePriceStatusCode (cp : Option ℚ) : ℕ :=
  if cp = none then 503 else 200

/-! ## `services/indicators.py` — `calc_ma` and `calc_rsi`

A DataFrame is embedded as its `close` column, a list of rationals
(`Option` for `df is None`).  `max(periods)` on an empty list raises
`ValueError`, embedded as `Except.error`.  The call sites only pass
strictly positive periods (default `[5, 10, 20, 60]`). -/

/-- `rolling(k).mean().iloc[-1]`: the mean of the last `k` elements
(meaningful for `1 ≤ k ≤ l.length`). -/
def meanLast (l : List ℚ) (k : ℕ) : ℚ := (l.drop (l.length - k)).sum / k

/-- Output shape `{"values": ..., "signals": ...}` of `calc_ma`;
signals are recorded by their `type` string. -/
structure MaOut where
  values : List (String × ℚ) := []
  signals : List String := []
  deriving DecidableEq, Repr

/-- Dict insertion for the MA values dict. -/
def dictInsertQ (m : List (String × ℚ)) (k : String) (v : ℚ) :
    List (String × ℚ) :=
  if m.any (·.1 = k) then m.map (fun kv => if kv.1 = k then (k, v) else kv)
  else m ++ [(k, v)]

/-- The MA5/MA20 cross detection of `calc_ma` (run when
`len(close) >= 20`).  `ma20.iloc[-2]` is NaN when the series has exactly
20 rows; comparisons against NaN are `False`, so no signal fires. -/
def maCrossSignals (closes : List ℚ) : List String :=
  let curr5 := meanLast closes 5
  let curr20 := meanLast closes 20
  let prev5 := meanLast closes.dropLast 5
  if closes.length ≥ 21 then
    let prev20 := meanLast closes.dropLast 20
    if prev5 ≤ prev20 ∧ curr20 < curr5 then ["golden_cross"]
    else if prev20 ≤ prev5 ∧ curr5 < curr20 then ["dead_cross"]
    else []
  else []

/-- `calc_ma(df, periods)`. -/
def calc_ma (df? : Option (List ℚ)) (periods : List ℕ) :
    Except Unit MaOut :=
  match df? with
  | none => .ok {}
  | some closes =>
      match periods.max? with
      | none => .error ()
      | some m =>
          if closes.length < m then .ok {}
          else
            let values := periods.foldl
              (fun acc k =>
                if k ≤ closes.length then
                  dictInsertQ acc ("MA" ++ toString k)
                    (pyRound2 (meanLast closes k))
                else acc) []
            let signals :=
              if closes.length ≥ 20 then maCrossSignals closes else []
            .ok { values := values, signals := signals }

/-- `close.diff()` without its leading NaN: consecutive differences. -/
def deltasOf (closes : List ℚ) : List ℚ :=
  List.zipWith (fun a b => b - a) closes closes.tail

/-- The positive part of a delta (`delta.where(delta > 0, 0)`). -/
def gainPart (d : ℚ) : ℚ := if 0 < d then d else 0

/-- The negative part of a delta (`(-delta).where(delta < 0, 0)`). -/
def lossPart (d : ℚ) : ℚ := if d < 0 then -d else 0

/-- The RSI value as `calc_rsi` leaves it: absent (insufficient data),
NaN (flat window, `0/0`), or a rational. -/
inductive RsiVal where
  | empty
  | nan
  | val (q : ℚ)
  deriving DecidableEq, Repr

/-- Output of `calc_rsi`: the (unrounded) `rsi_value` used for the
threshold tests, and the emitted signal types. -/
structure RsiOut where
  rsi : RsiVal
  signals : List String := []
  deriving DecidableEq, Repr

/-- `calc_rsi(df, period=14)`.  The averages are *simple* rolling means
over the last 14 deltas (`gain.rolling(window=14).mean()`); a zero
average loss makes `rs` infinite (RSI 100) or NaN when the average gain
is also zero. -/
def calc_rsi (df? : Option (List ℚ)) : RsiOut :=
  match df? with
  | none => ⟨.empty, []⟩
  | some closes =>
      if closes.length < 15 then ⟨.empty, []⟩
      else
        let deltas := deltasOf closes
        let last14 := deltas.drop (deltas.length - 14)
        let avg_gain := (last14.map gainPart).sum / 14
        let avg_loss := (last14.map lossPart).sum / 14
        if avg_loss = 0 then
          if avg_gain = 0 then ⟨.nan, []⟩
          else ⟨.val 100, ["overbought"]⟩
        else
          let rsi := 100 - 100 / (1 + avg_gain / avg_loss)
          ⟨.val rsi,
            if rsi < 30 then ["oversold"]
            else if 70 < rsi then ["overbought"]
            else []⟩

/-- The RSI the specification describes — Wilder's smoothing: the first
average is the simple mean of the first 14 gains (losses), every later
average is `(prev * 13 + new) / 14`.  Written from the spec's words
(§4.10 "classic Wilder formula") for comparison with `calc_rsi`;
`none` encodes NaN/insufficient data. -/
def wilderRsi (closes : List ℚ) : Option ℚ :=
  if closes.length < 15 then none
  else
    let deltas := deltasOf closes
    let seed := deltas.take 14
    let ag0 := (seed.map gainPart).sum / 14
    let al0 := (seed.map lossPart).sum / 14
    let avgs := (deltas.drop 14).foldl
      (fun (p : ℚ × ℚ) d =>
        ((p.1 * 13 + gainPart d) / 14, (p.2 * 13 + lossPart d) / 14))
      (ag0, al0)
    if avgs.2 = 0 then (if avgs.1 = 0 then none else some 100)
    else some (100 - 100 / (1 + avgs.1 / avgs.2))

/-- The average gain `calc_rsi` effectively uses, written directly over
the close series: the simple mean of the gains among the 14 consecutive
differences of the last 15 closes. -/
def cutlerAvgGain (closes : List ℚ) : ℚ :=
  ((deltasOf (closes.drop (closes.length - 15))).map gainPart).sum / 14

/-- The corresponding average loss. -/
def cutlerAvgLoss (closes : List ℚ) : ℚ :=
  ((deltasOf (closes.drop (closes.length - 15))).map lossPart).sum / 14

/-! ## `generate_daily_snapshots`

The snapshot store for the fixed `target_date` is an association list
`stock_id → snapshot`.  The two network-facing steps —
`fetch_historical_kline_data` for historical dates and
`enrich_stocks_batch` for today — are oracle inputs. -/

/-- One persisted MA entry of a snapshot. -/
structure SnapMA where
  ma_price : Option ℚ := none
  reached_target : Bool := false
  price_difference : Option ℚ := none
  price_difference_percent : Option ℚ := none
  data_source : String := ""
  deriving DecidableEq, Repr

/-- A persisted snapshot row (for the fixed target date). -/
structure SnapEntry where
  price : ℚ
  ma : List (String × SnapMA)
  deriving DecidableEq, Repr

/-- The snapshot table restricted to the target date. -/
abbrev SnapStore := List (ℕ × SnapEntry)

/-- `crud.get_snapshot(db, stock_id, target_date)`. -/
def lookupSnap (st : SnapStore) (id : ℕ) : Option SnapEntry :=
  (st.find? (fun kv => kv.1 == id)).map (·.2)

/-- `crud.create_or_update_snapshot`: overwrite an existing row, else
insert. -/
def upsertSnap (st : SnapStore) (id : ℕ) (e : SnapEntry) : SnapStore :=
  if (lookupSnap st id).isSome then
    st.map (fun kv => if kv.1 == id then (id, e) else kv)
  else st ++ [(id, e)]

/-- A monitored stock as `generate_daily_snapshots` reads it. -/
structure MonStock where
  id : ℕ
  ma_types : Option String := none
  deriving DecidableEq, Repr

/-- One row returned by `enrich_stocks_batch`. -/
structure EnrichRow where
  id : ℕ
  current_price : Option ℚ := none
  ma_results : List (String × MAResult) := []
  deriving DecidableEq, Repr

/-- `enriched.current_price or 0`. -/
def pyOrZero (cp : Option ℚ) : ℚ := if pyTruthy cp then cp.getD 0 else 0

/-- The historical branch of `generate_daily_snapshots`:
`(created, updated, skipped, store)`.  `histFetch` is
`fetch_historical_kline_data` (already `None` when the close for the
target date is missing). -/
def genHist (histFetch : MonStock → Option (ℚ × List (String × SnapMA)))
    (force : Bool) :
    List MonStock → SnapStore → ℕ → ℕ → ℕ → ℕ × ℕ × ℕ × SnapStore
  | [], st, c, u, s => (c, u, s, st)
  | stock :: rest, st, c, u, s =>
      let existing := lookupSnap st stock.id
      if existing.isSome ∧ ¬ force then
        genHist histFetch force rest st c u (s + 1)
      else
        match histFetch stock with
        | none => genHist histFetch force rest st c u (s + 1)
        | some (close, ma) =>
            if close ≤ 0 then genHist histFetch force rest st c u (s + 1)
            else
              let ma' := ma.map
                (fun kv => (kv.1, { kv.2 with data_source := "kline_close" }))
              let st' := upsertSnap st stock.id ⟨close, ma'⟩
              if existing.isSome then
                genHist histFetch force rest st' c (u + 1) s
              else genHist histFetch force rest st' (c + 1) u s

/-- The today branch of `generate_daily_snapshots` over the rows
`enrich_stocks_batch(stocks, force_refresh=True)` returned. -/
def genToday (force : Bool) :
    List EnrichRow → SnapStore → ℕ → ℕ → ℕ × ℕ × SnapStore
  | [], st, c, u => (c, u, st)
  | e :: rest, st, c, u =>
      let ma := e.ma_results.map
        (fun kv => (kv.1,
          ({ ma_price := kv.2.ma_price,
             reached_target := kv.2.reached_target,
             price_difference := kv.2.price_difference,
             price_difference_percent := kv.2.price_difference_percent,
             data_source := "realtime" } : SnapMA)))
      match lookupSnap st e.id with
      | some _ =>
          if force then
            genToday force rest (upsertSnap st e.id ⟨pyOrZero e.current_price, ma⟩)
              c (u + 1)
          else genToday force rest st c u
      | none =>
          genToday force rest (upsertSnap st e.id ⟨pyOrZero e.current_price, ma⟩)
            (c + 1) u

/-- `generate_daily_snapshots(db, force, target_date)`: returns
`(created, updated, store-after)`. -/
def generate_daily_snapshots (stocks : List MonStock) (st : SnapStore)
    (isHistorical force : Bool)
    (histFetch : MonStock → Option (ℚ × List (String × SnapMA)))
    (enriched : List EnrichRow) : ℕ × ℕ × SnapStore :=
  if stocks = [] then (0, 0, st)
  else if isHistorical then
    let r := genHist histFetch force stocks st 0 0 0
    (r.1, r.2.1, r.2.2.2)
  else genToday force enriched st 0 0

/-! ## `get_daily_report` — summary counters

The JSON `ma_results` of a snapshot is an association list whose entries
may lack the `reached_target` key (`r.get("reached_target", False)`). -/

/-- One parsed MA entry of a stored snapshot as the report reads it. -/
structure ReportMA where
  reached_target : Option Bool := none
  ma_price : Option ℚ := none
  price_difference_percent : Option ℚ := none
  deriving DecidableEq, Repr

/-- One snapshot row for the target date as the report reads it. -/
structure SnapRow where
  stock_id : ℕ
  price : Option ℚ := none
  ma_results : List (String × ReportMA) := []
  deriving DecidableEq, Repr

/-- `any(r.get("reached_target", False) for r in ma_results.values())`. -/
def rowReached (r : SnapRow) : Bool :=
  r.ma_results.any (fun kv => kv.2.reached_target.getD false)

/-- The `reached_count` accumulation of the report loop. -/
def reportReachedCount (snaps : List SnapRow) : ℕ :=
  snaps.foldl (fun acc s => if rowReached s then acc + 1 else acc) 0

/-- The summary triple `(total_stocks, reached_count, reached_rate)` of
`get_daily_report` (the empty-snapshot early return gives zeros). -/
structure ReportSummary where
  total_stocks : ℕ
  reached_count : ℕ
  reached_rate : ℚ
  deriving DecidableEq, Repr

/-- The summary `get_daily_report` computes for the target date. -/
def getDailyReportSummary (snaps : List SnapRow) : ReportSummary :=
  if snaps = [] then ⟨0, 0, 0⟩
  else
    let total := snaps.length
    let count := reportReachedCount snaps
    let rate := if 0 < total then (count : ℚ) / total * 100 else 0
    ⟨total, count, pyRound1 rate⟩

/-! # Theorems -/

/-! ## Helper lemmas -/

/-- Round-half-even lands within half a unit. -/
theorem abs_roundHalfEven_sub (y : ℚ) : |(roundHalfEven y : ℚ) - y| ≤ 1 / 2 := by
  unfold roundHalfEven
  split
  · rename_i htie
    split
    · have hv : ((⌊y⌋ : ℚ)) - y = -(1 / 2) := by linarith
      rw [hv]; norm_num [abs_le]
    · have hv : ((⌊y⌋ + 1 : ℤ) : ℚ) - y = 1 / 2 := by push_cast; linarith
      rw [hv]; norm_num [abs_le]
  · rw [abs_sub_comm]; exact abs_sub_round y

/-- `round(x, 2)` is within `0.005` of `x` — the tolerance the
specification allows for `ma_price`. -/
theorem abs_pyRound2_sub (x : ℚ) : |pyRound2 x - x| ≤ 1 / 200 := by
  have h := abs_roundHalfEven_sub (x * 100)
  unfold pyRound2 pyRound
  have hx : ((roundHalfEven (x * 10 ^ 2) : ℚ)) / 10 ^ 2 - x =
      ((roundHalfEven (x * 100) : ℚ) - x * 100) / 100 := by
    norm_num; ring
  rw [hx, abs_div]
  rw [show |(100 : ℚ)| = 100 by norm_num]
  linarith [h]

/-- C2 helper: the two `record_failure` outcome shapes. -/
theorem record_failure_cases (h : ProviderHealth) (now : ℚ) :
    (h.consecutive_failures + 1 ≥ 3 →
      h.record_failure now =
        { h with status := .cooling,
                 cooldown_until := some (now + 300),
                 last_failure_time := some now,
                 consecutive_failures := h.consecutive_failures + 1,
                 total_requests := h.total_requests + 1,
                 total_failures := h.total_failures + 1 }) ∧
    (h.consecutive_failures + 1 < 3 →
      h.record_failure now =
        { h with status := .degraded,
                 last_failure_time := some now,
                 consecutive_failures := h.consecutive_failures + 1,
                 total_requests := h.total_requests + 1,
                 total_failures := h.total_failures + 1 }) := by
  constructor
  · intro hge
    unfold ProviderHealth.record_failure
    simp only [if_pos hge]
    norm_num
  · intro hlt
    unfold ProviderHealth.record_failure
    simp only [if_neg (by omega : ¬ h.consecutive_failures + 1 ≥ 3)]

/-! ## C2 — provider health state machine -/

/-- C2: from `HEALTHY` the first `record_failure` moves the provider to
`DEGRADED`; the 3rd consecutive failure moves it to `COOLING` with
`cooldown_until` five minutes (300 s) ahead; while `COOLING` strictly
before `cooldown_until`, `is_available()` is `False`; from
`cooldown_until` on it is `True`, restoring `HEALTHY` with
`consecutive_failures` cleared; and `record_success` always resets
`consecutive_failures` and returns a `DEGRADED` provider to
`HEALTHY`. -/
theorem provider_health_state_machine :
    (∀ (h : ProviderHealth) (now : ℚ),
        h.status = .healthy → h.consecutive_failures = 0 →
        (h.record_failure now).status = .degraded ∧
        (h.record_failure now).consecutive_failures = 1) ∧
    (∀ (h : ProviderHealth) (now : ℚ),
        h.consecutive_failures = 2 →
        (h.record_failure now).status = .cooling ∧
        (h.record_failure now).cooldown_until = some (now + 300) ∧
        (h.record_failure now).consecutive_failures = 3) ∧
    (∀ (h : ProviderHealth) (now t : ℚ),
        h.status = .cooling → h.cooldown_until = some t → now < t →
        (h.is_available now).1 = false ∧ (h.is_available now).2 = h) ∧
    (∀ (h : ProviderHealth) (now t : ℚ),
        h.status = .cooling → h.cooldown_until = some t → t ≤ now →
        (h.is_available now).1 = true ∧
        (h.is_available now).2.status = .healthy ∧
        (h.is_available now).2.consecutive_failures = 0 ∧
        (h.is_available now).2.cooldown_until = none) ∧
    (∀ (h : ProviderHealth) (now : ℚ),
        (h.record_success now).consecutive_failures = 0 ∧
        (h.status = .degraded → (h.record_success now).status = .healthy)) := by
  refine ⟨?_, ?_, ?_, ?_, ?_⟩
  · intro h now _ hcf
    rw [(record_failure_cases h now).2 (by omega)]
    exact ⟨rfl, by simp [hcf]⟩
  · intro h now hcf
    rw [(record_failure_cases h now).1 (by omega)]
    exact ⟨rfl, rfl, by simp [hcf]⟩
  · intro h now t hst hcd hlt
    unfold ProviderHealth.is_available
    rw [hst, hcd]
    simp [hlt]
  · intro h now t hst hcd hle
    unfold ProviderHealth.is_available
    rw [hst, hcd]
    simp [not_lt.mpr hle]
  · intro h now
    unfold ProviderHealth.record_success
    constructor
    · dsimp only
      split <;> rfl
    · intro hst
      dsimp only
      simp [hst]

/-- C2 witness: the state machine evaluated at concrete states. -/
theorem provider_health_state_machine_witness :
    (({} : ProviderHealth).record_failure 0).status = .degraded ∧
    (({ consecutive_failures := 2 } : ProviderHealth).record_failure 7).cooldown_until
      = some 307 ∧
    ((({ status := .cooling, cooldown_until := some 10 } :
        ProviderHealth)).is_available 5).1 = false ∧
    ((({ status := .cooling, cooldown_until := some 10 } :
        ProviderHealth)).is_available 10).1 = true ∧
    ((({ status := .degraded, consecutive_failures := 2 } :
        ProviderHealth)).record_success 3).status = .healthy := by
  refine ⟨(provider_health_state_machine.1 {} 0 rfl rfl).1, ?_, ?_, ?_, ?_⟩
  · have h := (provider_health_state_machine.2.1 { consecutive_failures := 2 } 7 rfl).2.1
    rw [h]; norm_num
  · exact (provider_health_state_machine.2.2.1
      { status := .cooling, cooldown_until := some 10 } 5 10 rfl rfl
      (by norm_num)).1
  · exact (provider_health_state_machine.2.2.2.1
      { status := .cooling, cooldown_until := some 10 } 10 10 rfl rfl
      le_rfl).1
  · exact (provider_health_state_machine.2.2.2.2
      { status := .degraded, consecutive_failures := 2 } 3).2 rfl

/-! ## C1 — coordinator fallback order -/

instance : IsTotal Provider (fun a b => a.PRIORITY ≤ b.PRIORITY) :=
  ⟨fun a b => Nat.le_total a.PRIORITY b.PRIORITY⟩

instance : IsTrans Provider (fun a b => a.PRIORITY ≤ b.PRIORITY) :=
  ⟨fun _ _ _ hab hbc => Nat.le_trans hab hbc⟩

/-- Unpacking a successful provider. -/
theorem succData_isSome (p : Provider) (h : (p.succData).isSome = true) :
    ∃ d, p.call = .ret (some d) ∧ d.is_valid = true ∧ p.succData = some d := by
  unfold Provider.succData at *
  cases hc : p.call with
  | exc => rw [hc] at h; simp at h
  | ret dopt =>
      cases dopt with
      | none => rw [hc] at h; simp at h
      | some d =>
          rw [hc] at h
          by_cases hv : d.is_valid = true
          · exact ⟨d, rfl, hv, by simp [hv]⟩
          · simp [hv] at h

/-- Loop step: an unavailable provider is skipped silently. -/
theorem getGo_cons_unavail {q : Provider} (rest : List Provider)
    (tried : List String) (h : q.avail = false) :
    getRealtimePriceGo (q :: rest) tried = getRealtimePriceGo rest tried := by
  simp [getRealtimePriceGo, h]

/-- Loop step: an available provider that raises is recorded and
skipped. -/
theorem getGo_cons_exc {q : Provider} (rest : List Provider)
    (tried : List String) (ha : q.avail = true) (hc : q.call = .exc) :
    getRealtimePriceGo (q :: rest) tried =
      getRealtimePriceGo rest (tried ++ [q.NAME]) := by
  simp [getRealtimePriceGo, ha, hc]

/-- Loop step: an available provider returning `None` is recorded and
skipped. -/
theorem getGo_cons_none {q : Provider} (rest : List Provider)
    (tried : List String) (ha : q.avail = true) (hc : q.call = .ret none) :
    getRealtimePriceGo (q :: rest) tried =
      getRealtimePriceGo rest (tried ++ [q.NAME]) := by
  simp [getRealtimePriceGo, ha, hc]

/-- Loop step: an available provider returning invalid data is recorded
and skipped. -/
theorem getGo_cons_invalid {q : Provider} {d : StockData}
    (rest : List Provider) (tried : List String) (ha : q.avail = true)
    (hc : q.call = .ret (some d)) (hv : d.is_valid = false) :
    getRealtimePriceGo (q :: rest) tried =
      getRealtimePriceGo rest (tried ++ [q.NAME]) := by
  simp [getRealtimePriceGo, ha, hc, hv]

/-- Loop step: an available provider returning valid data wins. -/
theorem getGo_cons_valid {q : Provider} {d : StockData}
    (rest : List Provider) (tried : List String) (ha : q.avail = true)
    (hc : q.call = .ret (some d)) (hv : d.is_valid = true) :
    getRealtimePriceGo (q :: rest) tried =
      { success := true, data := some d, provider_name := q.NAME,
        error_message := "", tried_providers := tried ++ [q.NAME] } := by
  simp [getRealtimePriceGo, ha, hc, hv]

/-- The provider loop returns the first available provider whose call
yields valid data, with the accumulated tried list. -/
theorem getGo_first_success (l1 : List Provider) (p : Provider)
    (l2 : List Provider) (hp : p.succeeds) (h1 : ∀ q ∈ l1, ¬ q.succeeds) :
    ∀ tried, getRealtimePriceGo (l1 ++ p :: l2) tried =
      { success := true, data := p.succData, provider_name := p.NAME,
        error_message := "",
        tried_providers :=
          tried ++ (l1.filter (·.avail)).map Provider.NAME ++ [p.NAME] } := by
  induction l1 with
  | nil =>
      intro tried
      obtain ⟨ha, hd⟩ := hp
      obtain ⟨d, hc, hv, hsd⟩ := succData_isSome p hd
      rw [List.nil_append, getGo_cons_valid l2 tried ha hc hv]
      simp [hsd]
  | cons q l1' ih =>
      intro tried
      have hq : ¬ q.succeeds := h1 q (List.mem_cons_self q l1')
      have h1' : ∀ r ∈ l1', ¬ r.succeeds :=
        fun r hr => h1 r (List.mem_cons_of_mem q hr)
      rw [List.cons_append]
      by_cases hqa : q.avail = true
      · have hqd : ¬ (q.succData).isSome = true := fun hcon => hq ⟨hqa, hcon⟩
        have hstep : getRealtimePriceGo (q :: (l1' ++ p :: l2)) tried =
            getRealtimePriceGo (l1' ++ p :: l2) (tried ++ [q.NAME]) := by
          cases hqc : q.call with
          | exc => exact getGo_cons_exc _ _ hqa hqc
          | ret dopt =>
              cases dopt with
              | none => exact getGo_cons_none _ _ hqa hqc
              | some d =>
                  have hv : d.is_valid = false := by
                    by_contra hcon
                    exact hqd (by simp [Provider.succData, hqc,
                      (by simpa using hcon : d.is_valid = true)])
                  exact getGo_cons_invalid _ _ hqa hqc hv
        rw [hstep, ih h1' (tried ++ [q.NAME])]
        simp [List.filter_cons, hqa, List.append_assoc]
      · have hqa' : q.avail = false := by simpa using hqa
        rw [getGo_cons_unavail _ _ hqa', ih h1' tried]
        simp [List.filter_cons, hqa']

/-- C1: the coordinator iterates providers in ascending priority, skips
the unavailable ones, and returns the data of the first provider whose
call yields a valid result — never a later provider's — together with
that provider's name and the ordered list of providers tried up to and
including it. -/
theorem coordinator_first_available_success
    (ps l1 l2 : List Provider) (p : Provider)
    (hdec : coordinatorProviders ps = l1 ++ p :: l2)
    (hp : p.succeeds) (h1 : ∀ q ∈ l1, ¬ q.succeeds) :
    (coordinatorProviders ps).Sorted (fun a b => a.PRIORITY ≤ b.PRIORITY) ∧
    (∀ q ∈ l2, p.PRIORITY ≤ q.PRIORITY) ∧
    get_realtime_price ps =
      { success := true, data := p.succData, provider_name := p.NAME,
        error_message := "",
        tried_providers := (l1.filter (·.avail)).map Provider.NAME ++ [p.NAME] } := by
  have hsorted : (coordinatorProviders ps).Sorted (fun a b => a.PRIORITY ≤ b.PRIORITY) :=
    List.sorted_insertionSort _ ps
  refine ⟨hsorted, ?_, ?_⟩
  · have hsd : (l1 ++ p :: l2).Sorted (fun a b => a.PRIORITY ≤ b.PRIORITY) :=
      hdec ▸ hsorted
    have hcons : (p :: l2).Sorted (fun a b => a.PRIORITY ≤ b.PRIORITY) :=
      hsd.sublist (List.sublist_append_right l1 (p :: l2))
    exact fun q hq => List.rel_of_sorted_cons hcons q hq
  · unfold get_realtime_price
    rw [hdec, getGo_first_success l1 p l2 hp h1 []]
    simp

/-- C1 witness: the spec's fallback scenario — L1 (priority 1) raises,
L2 (priority 2) returns a valid quote; L2's data is returned with
`tried_providers = [L1, L2]` (the pool is supplied unsorted). -/
theorem coordinator_first_available_success_witness :
    get_realtime_price
        [⟨2, "L2", true, .ret (some ⟨"600000", some "X", some 12, "L2"⟩)⟩,
         ⟨1, "L1", true, .exc⟩] =
      { success := true,
        data := some ⟨"600000", some "X", some 12, "L2"⟩,
        provider_name := "L2", error_message := "",
        tried_providers := ["L1", "L2"] } := by
  have h := coordinator_first_available_success
    [⟨2, "L2", true, .ret (some ⟨"600000", some "X", some 12, "L2"⟩)⟩,
     ⟨1, "L1", true, .exc⟩]
    [⟨1, "L1", true, .exc⟩] []
    ⟨2, "L2", true, .ret (some ⟨"600000", some "X", some 12, "L2"⟩)⟩
    (by decide) (by decide) (by decide)
  simpa [Provider.succData, StockData.is_valid] using h.2.2

/-! ## C3 — `is_realtime` vs trading day and session window -/

/-- C3 counterexample: with no db session (as in `read_stock`,
`main.py:249`), a weekday holiday inside the session window is marked
`is_realtime = true` although the calendar says it is not a trading
day — the claim as stated fails. -/
theorem is_realtime_no_db_counterexample :
    enrichIsRealtime true false false .cn false ⟨0, 36000, 0, 36000, false⟩ = true ∧
    (⟨0, 36000, 0, 36000, false⟩ : ClockEnv).calTradingDay = false := by
  constructor
  · decide
  · rfl

/-- C3 (amended): whenever the enrichment marks `is_realtime = true`,
the current time lies within the market's session window (on a
weekday); and additionally today is a calendar trading day whenever the
call was given a db session (market `cn`). -/
theorem is_realtime_implies_session
    (force nr cpt : Bool) (market : Market) (dbProvided : Bool)
    (env : ClockEnv)
    (h : enrichIsRealtime force nr cpt market dbProvided env = true) :
    is_trading_time market env = true ∧
    (market = .cn → env.bjWeekday < 5 ∧
      ((34200 ≤ env.bjSeconds ∧ env.bjSeconds ≤ 41400) ∨
       (46800 ≤ env.bjSeconds ∧ env.bjSeconds ≤ 54000))) ∧
    (market = .cn → dbProvided = true → env.calTradingDay = true) := by
  have hrt : is_real_trading_time market dbProvided env = true := by
    unfold enrichIsRealtime at h
    split_ifs at h <;> simp_all
  have htt : is_trading_time market env = true := by
    unfold is_real_trading_time at hrt
    by_cases htt : is_trading_time market env = true
    · exact htt
    · rw [if_pos (by simp_all)] at hrt
      exact absurd hrt (by simp)
  refine ⟨htt, ?_, ?_⟩
  · intro hcn
    subst hcn
    have htt' : is_cn_trading_time env = true := htt
    unfold is_cn_trading_time at htt'
    split_ifs at htt' with hwd
    exact ⟨by omega, of_decide_eq_true htt'⟩
  · intro hcn hdb
    subst hcn
    subst hdb
    unfold is_real_trading_time at hrt
    rw [if_neg (by simp [htt])] at hrt
    simpa using hrt

/-- C3 witness: with a db session, an in-session trading day is marked
realtime and the conclusions hold. -/
theorem is_realtime_implies_session_witness :
    is_trading_time .cn ⟨0, 36000, 0, 36000, true⟩ = true ∧
    (⟨0, 36000, 0, 36000, true⟩ : ClockEnv).calTradingDay = true := by
  have h := is_realtime_implies_session true false false .cn true
    ⟨0, 36000, 0, 36000, true⟩ (by decide)
  exact ⟨h.1, h.2.2 rfl rfl⟩

/-! ## C4 — the per-MA entry formula -/

/-- C4 counterexample: a close series whose mean rounds to `0` (five
closes of `0.001`, current price `1`, period `5`, series length `5 ≥ 5`,
price non-null): the code leaves the default entry — `ma_price` is
`None`, not the rounded mean — so the claim as stated fails. -/
theorem ma_result_zero_mean_counterexample :
    computeMAResult (some 1)
        (some [1 / 1000, 1 / 1000, 1 / 1000, 1 / 1000, 1 / 1000]) 5 =
      .ok { ma_price := none, reached_target := false,
            price_difference := none, price_difference_percent := none } ∧
    [(1 : ℚ) / 1000, 1 / 1000, 1 / 1000, 1 / 1000, 1 / 1000].length = 5 := by
  have hr : pyRound2 ((1 : ℚ) / 1000) = 0 := by
    unfold pyRound2 pyRound roundHalfEven
    norm_num [round_eq]
  constructor
  · unfold computeMAResult lastSlice
    norm_num [hr]
  · rfl

/-- C4 (amended): whenever the close series has length ≥ k ≥ 1, the
current price is non-null and the rounded mean of the last k closes is
positive, the entry for `MAk` carries exactly the rounded mean (within
`±0.005` of the true mean), `reached_target = (current ≥ ma_price)`,
`price_difference = round(current − ma_price, 2)` and
`price_difference_percent = round((current − ma_price)/ma_price·100, 2)`;
when the rounded mean is not positive the default entry is kept (the
counterexample) — that guard is the only amendment. -/
theorem ma_result_formula (cp : ℚ) (closes : List ℚ) (k : ℕ)
    (hk : 1 ≤ k) (hlen : k ≤ closes.length)
    (hpos : 0 < pyRound2 (maLastMean closes k)) :
    computeMAResult (some cp) (some closes) k =
      .ok { ma_price := some (pyRound2 (maLastMean closes k)),
            reached_target := decide (pyRound2 (maLastMean closes k) ≤ cp),
            price_difference :=
              some (pyRound2 (cp - pyRound2 (maLastMean closes k))),
            price_difference_percent :=
              some (pyRound2 ((cp - pyRound2 (maLastMean closes k)) /
                pyRound2 (maLastMean closes k) * 100)) } ∧
    |pyRound2 (maLastMean closes k) - maLastMean closes k| ≤ 1 / 200 := by
  have hk0 : k ≠ 0 := by omega
  have hne : closes ≠ [] := by
    intro hnil
    rw [hnil] at hlen
    simp at hlen
    omega
  have hslice : lastSlice closes k = closes.drop (closes.length - k) := by
    unfold lastSlice
    rw [if_neg hk0]
  have hlenfinal : (closes.drop (closes.length - k)).length = k := by
    rw [List.length_drop]
    omega
  constructor
  · unfold computeMAResult
    dsimp only
    rw [if_pos ⟨hne, hlen⟩]
    simp only [hslice, hlenfinal, le_refl, if_true, if_neg hk0]
    unfold maLastMean at hpos
    rw [if_pos hpos]
    unfold maLastMean
    rfl
  · exact abs_pyRound2_sub (maLastMean closes k)

/-- C4 witness: the spec's MA-exactness scenario — closes
`[10, 11, 12, 13, 14]`, period 5, current price 14: `ma_price = 12`,
`reached_target = true`, `diff = 2.00`, `diff_pct = 16.67`. -/
theorem ma_result_formula_witness :
    computeMAResult (some 14) (some [10, 11, 12, 13, 14]) 5 =
      .ok { ma_price := some 12, reached_target := true,
            price_difference := some 2,
            price_difference_percent := some (1667 / 100) } := by
  have hmean : maLastMean [10, 11, 12, 13, 14] 5 = 12 := by
    unfold maLastMean
    norm_num
  have h12 : pyRound2 (12 : ℚ) = 12 := by
    unfold pyRound2 pyRound roundHalfEven
    norm_num [round_eq]
  have h := ma_result_formula 14 [10, 11, 12, 13, 14] 5 (by norm_num)
    (by norm_num) (by rw [hmean, h12]; norm_num)
  rw [h.1, hmean, h12]
  have h2 : pyRound2 ((14 : ℚ) - 12) = 2 := by
    unfold pyRound2 pyRound roundHalfEven
    norm_num [round_eq]
  have hpct : pyRound2 (((14 : ℚ) - 12) / 12 * 100) = 1667 / 100 := by
    unfold pyRound2 pyRound roundHalfEven
    norm_num [round_eq]
  rw [h2, hpct]
  norm_num

/-! ## C7 — behaviour when every provider fails -/

/-- C7 counterexample: all providers fail (`fetchPriceOf` of the
coordinator result is `None`), yet for a stock with a stored price of 12
and no k-line data the enrichment returns `current_price = 12` — the
stored price, not `null` — so the claim as stated fails. -/
theorem enrich_price_fallback_counterexample :
    enrichCurrentPrice true none (some 12) none = some 12 ∧
    fetchPriceOf (get_realtime_price [⟨1, "L1", true, .exc⟩]) = none := by
  constructor
  · decide
  · decide

/-- C7 (amended): when every provider fails on the fetch path the
enrichment does not throw (the embedding is total); `current_price`
falls back to the last k-line close when that is truthy, else to the
stored price, and is `null` exactly when the stored price is also absent
and no k-line close is usable; the 503 is raised at the HTTP boundary
exactly in that `null` case. -/
theorem enrich_price_fallback (stored : Option ℚ) (closes? : Option (List ℚ)) :
    (pyTruthy (closes?.bind List.getLast?) = true →
       enrichCurrentPrice true none stored closes? = closes?.bind List.getLast?) ∧
    (pyTruthy (closes?.bind List.getLast?) = false →
       enrichCurrentPrice true none stored closes? = stored) ∧
    (enrichCurrentPrice true none stored closes? = none ↔
       stored = none ∧ pyTruthy (closes?.bind List.getLast?) = false) ∧
    (updatePriceStatusCode (enrichCurrentPrice true none stored closes?) = 503 ↔
       enrichCurrentPrice true none stored closes? = none) := by
  have hmain : enrichCurrentPrice true none stored closes? =
      pyOr (closes?.bind List.getLast?) stored := rfl
  refine ⟨?_, ?_, ?_, ?_⟩
  · intro h
    rw [hmain]
    simp [pyOr, h]
  · intro h
    rw [hmain]
    simp [pyOr, h]
  · rw [hmain]
    cases hpt : pyTruthy (closes?.bind List.getLast?) with
    | false => simp [pyOr, hpt]
    | true =>
        have hne : closes?.bind List.getLast? ≠ none := by
          intro hn
          rw [hn] at hpt
          simp [pyTruthy] at hpt
        simp [pyOr, hpt, hne]
  · unfold updatePriceStatusCode
    split <;> simp_all

/-- C7 witness: no k-line fallback and a stored price of 12 — the
stored price is returned and no 503 is raised. -/
theorem enrich_price_fallback_witness :
    enrichCurrentPrice true none (some 12) none = some 12 ∧
    updatePriceStatusCode (enrichCurrentPrice true none (some 12) none) ≠ 503 := by
  have h := enrich_price_fallback (some 12) none
  refine ⟨h.2.1 (by decide), ?_⟩
  intro h503
  have hnone := (h.2.2.2).mp h503
  rw [h.2.1 (by decide)] at hnone
  cases hnone

/-! ## C5 — idempotence of `generate_daily_snapshots` with `force=false` -/

/-- Historical branch: with `force=false`, stocks that already have a
snapshot are all skipped and the store is untouched. -/
theorem genHist_skip
    (histFetch : MonStock → Option (ℚ × List (String × SnapMA)))
    (stocks : List MonStock) (st : SnapStore)
    (h : ∀ s ∈ stocks, (lookupSnap st s.id).isSome = true) :
    ∀ c u s, genHist histFetch false stocks st c u s =
      (c, u, s + stocks.length, st) := by
  induction stocks with
  | nil => intro c u s; simp [genHist]
  | cons stock rest ih =>
      intro c u s
      have hs := h stock (List.mem_cons_self stock rest)
      have hrest : ∀ x ∈ rest, (lookupSnap st x.id).isSome = true :=
        fun x hx => h x (List.mem_cons_of_mem stock hx)
      unfold genHist
      rw [if_pos ⟨hs, by simp⟩]
      rw [ih hrest c u (s + 1)]
      have harith : s + 1 + rest.length = s + (rest.length + 1) := by omega
      simp [harith]

/-- Today branch: with `force=false`, rows whose stock already has a
snapshot neither create nor update anything. -/
theorem genToday_skip (rows : List EnrichRow) (st : SnapStore)
    (h : ∀ e ∈ rows, (lookupSnap st e.id).isSome = true) :
    ∀ c u, genToday false rows st c u = (c, u, st) := by
  induction rows with
  | nil => intro c u; simp [genToday]
  | cons e rest ih =>
      intro c u
      have he := h e (List.mem_cons_self e rest)
      obtain ⟨v, hv⟩ := Option.isSome_iff_exists.mp he
      have hrest : ∀ x ∈ rest, (lookupSnap st x.id).isSome = true :=
        fun x hx => h x (List.mem_cons_of_mem e hx)
      unfold genToday
      rw [hv]
      simp only [Bool.false_eq_true, if_false]
      exact ih hrest c u

/-- C5: when every monitored instrument already has a snapshot for the
target date, re-running `generate_daily_snapshots` with `force=false`
(historical or today) leaves every existing snapshot unchanged and
returns `created = 0`, `updated = 0`. -/
theorem snapshots_idempotent_noforce
    (stocks : List MonStock) (st : SnapStore) (isHistorical : Bool)
    (histFetch : MonStock → Option (ℚ × List (String × SnapMA)))
    (enriched : List EnrichRow)
    (hsnap : ∀ s ∈ stocks, (lookupSnap st s.id).isSome = true)
    (henr : ∀ e ∈ enriched, ∃ s ∈ stocks, s.id = e.id) :
    generate_daily_snapshots stocks st isHistorical false histFetch enriched =
      (0, 0, st) := by
  unfold generate_daily_snapshots
  by_cases hempty : stocks = []
  · rw [if_pos hempty]
  · rw [if_neg hempty]
    cases isHistorical with
    | true =>
        rw [if_pos rfl]
        rw [genHist_skip histFetch stocks st hsnap 0 0 0]
    | false =>
        rw [if_neg (by simp)]
        apply genToday_skip enriched st
        intro e he
        obtain ⟨s, hsmem, hid⟩ := henr e he
        rw [← hid]
        exact hsnap s hsmem

/-- C5 witness: one stock with an existing snapshot, today branch: the
second run reports `(0, 0)` and the store is unchanged. -/
theorem snapshots_idempotent_noforce_witness :
    generate_daily_snapshots [⟨1, none⟩] [(1, ⟨10, []⟩)] false false
      (fun _ => none) [⟨1, some 11, []⟩] = (0, 0, [(1, ⟨10, []⟩)]) := by
  apply snapshots_idempotent_noforce
  · intro s hs
    simp at hs
    subst hs
    decide
  · intro e he
    simp at he
    subst he
    exact ⟨⟨1, none⟩, by simp, rfl⟩

/-! ## C6 — daily-report `reached_count` and `reached_rate` -/

/-- `rowReached` agrees with "has at least one MA entry whose
`reached_target` is `true`". -/
theorem rowReached_eq_decide (r : SnapRow) :
    rowReached r = decide (∃ p ∈ r.ma_results, p.2.reached_target = some true) := by
  unfold rowReached
  by_cases hex : ∃ p ∈ r.ma_results, p.2.reached_target = some true
  · have hex' := hex
    obtain ⟨p, hp, hv⟩ := hex'
    have h1 : r.ma_results.any (fun kv => kv.2.reached_target.getD false) = true :=
      List.any_eq_true.mpr ⟨p, hp, by rw [hv]; rfl⟩
    rw [h1, decide_eq_true hex]
  · have h1 : r.ma_results.any (fun kv => kv.2.reached_target.getD false) = false := by
      rw [List.any_eq_false]
      intro p hp
      cases hv : p.2.reached_target with
      | none => simp
      | some b =>
          cases b with
          | true => exact absurd ⟨p, hp, hv⟩ hex
          | false => simp [hv]
    rw [h1, decide_eq_false hex]

/-- The report loop's accumulator equals a filter length. -/
theorem reportReachedCount_eq (snaps : List SnapRow) :
    reportReachedCount snaps = (snaps.filter rowReached).length := by
  unfold reportReachedCount
  suffices h : ∀ n, snaps.foldl (fun acc s => if rowReached s then acc + 1 else acc) n =
      n + (snaps.filter rowReached).length by
    simpa using h 0
  induction snaps with
  | nil => intro n; simp
  | cons s rest ih =>
      intro n
      simp only [List.foldl_cons, List.filter_cons]
      by_cases hs : rowReached s
      · simp only [hs, if_true]
        rw [ih (n + 1)]
        simp
        omega
      · simp only [hs]
        rw [if_neg (by simp [hs]), if_neg (by simp [hs]), ih n]

/-- C6: for a non-empty snapshot set, the summary's `reached_count` is
the number of snapshots with at least one reached MA entry, and
`reached_rate` is `reached_count / total_stocks · 100` rounded to one
decimal. -/
theorem daily_report_reached_count (snaps : List SnapRow) (h : snaps ≠ []) :
    (getDailyReportSummary snaps).reached_count =
      (snaps.filter
        (fun r => decide (∃ p ∈ r.ma_results, p.2.reached_target = some true))).length ∧
    (getDailyReportSummary snaps).reached_rate =
      pyRound1 ((((snaps.filter
        (fun r => decide (∃ p ∈ r.ma_results, p.2.reached_target = some true))).length : ℚ) /
          snaps.length) * 100) ∧
    (getDailyReportSummary snaps).total_stocks = snaps.length := by
  have hfilter : snaps.filter rowReached =
      snaps.filter (fun r => decide (∃ p ∈ r.ma_results, p.2.reached_target = some true)) := by
    apply List.filter_congr
    intro r _
    exact rowReached_eq_decide r
  have hlen : 0 < snaps.length := List.length_pos.mpr h
  unfold getDailyReportSummary
  rw [if_neg h]
  dsimp only
  rw [if_pos hlen]
  refine ⟨?_, ?_, rfl⟩
  · rw [reportReachedCount_eq, hfilter]
  · rw [reportReachedCount_eq, hfilter]

/-- C6 witness: three snapshots, two of which have a reached MA —
`reached_count = 2`, `reached_rate = round(2/3·100, 1) = 66.7`. -/
theorem daily_report_reached_count_witness :
    (getDailyReportSummary
      [⟨1, some 10, [("MA5", ⟨some true, some 9, some 1⟩)]⟩,
       ⟨2, some 10, [("MA5", ⟨some false, some 11, some (-1)⟩)]⟩,
       ⟨3, some 10, [("MA5", ⟨none, none, none⟩), ("MA10", ⟨some true, some 8, some 2⟩)]⟩]).reached_count = 2 ∧
    (getDailyReportSummary
      [⟨1, some 10, [("MA5", ⟨some true, some 9, some 1⟩)]⟩,
       ⟨2, some 10, [("MA5", ⟨some false, some 11, some (-1)⟩)]⟩,
       ⟨3, some 10, [("MA5", ⟨none, none, none⟩), ("MA10", ⟨some true, some 8, some 2⟩)]⟩]).reached_rate = 667 / 10 := by
  have h := daily_report_reached_count
    [⟨1, some 10, [("MA5", ⟨some true, some 9, some 1⟩)]⟩,
     ⟨2, some 10, [("MA5", ⟨some false, some 11, some (-1)⟩)]⟩,
     ⟨3, some 10, [("MA5", ⟨none, none, none⟩), ("MA10", ⟨some true, some 8, some 2⟩)]⟩]
    (by simp)
  constructor
  · rw [h.1]
    decide
  · rw [h.2.1]
    have hf : ([⟨1, some 10, [("MA5", ⟨some true, some 9, some 1⟩)]⟩,
       ⟨2, some 10, [("MA5", ⟨some false, some 11, some (-1)⟩)]⟩,
       ⟨3, some 10, [("MA5", ⟨none, none, none⟩), ("MA10", ⟨some true, some 8, some 2⟩)]⟩] :
         List SnapRow).filter
        (fun r => decide (∃ p ∈ r.ma_results, p.2.reached_target = some true)) =
        [⟨1, some 10, [("MA5", ⟨some true, some 9, some 1⟩)]⟩,
         ⟨3, some 10, [("MA5", ⟨none, none, none⟩), ("MA10", ⟨some true, some 8, some 2⟩)]⟩] := by
      decide
    rw [hf]
    unfold pyRound1 pyRound roundHalfEven
    norm_num [round_eq]

/-! ## C8 — `calc_rsi` uses simple means, not Wilder smoothing -/

/-- The consecutive-difference list is one shorter than the series. -/
theorem deltasOf_length (l : List ℚ) : (deltasOf l).length = l.length - 1 := by
  unfold deltasOf
  rw [List.length_zipWith, List.length_tail]
  omega

/-- Dropping from the difference list is differencing the dropped
series. -/
theorem deltasOf_drop (l : List ℚ) (n : ℕ) :
    (deltasOf l).drop n = deltasOf (l.drop n) := by
  unfold deltasOf
  rw [List.drop_zipWith]
  congr 1
  rw [← List.drop_one, List.drop_drop, List.tail_drop, Nat.add_comm]

/-- The last 14 deltas of a series of length ≥ 15 are the deltas of its
last 15 closes. -/
theorem cutler_last14 (closes : List ℚ) (hlen : 15 ≤ closes.length) :
    (deltasOf closes).drop ((deltasOf closes).length - 14) =
      deltasOf (closes.drop (closes.length - 15)) := by
  rw [deltasOf_length, deltasOf_drop]
  have harith : closes.length - 1 - 14 = closes.length - 15 := by omega
  rw [harith]

/-- C8 counterexample: for the closes `[10, 20, 10, 10, …, 10]` (16
values) the code computes RSI 0 (simple mean of the last 14 deltas, the
`+10` falling out of the window) and flags `oversold`, while the claim's
Wilder smoothing yields RSI 50 — the two formulas disagree. -/
theorem rsi_not_wilder_counterexample :
    calc_rsi (some [10, 20, 10, 10, 10, 10, 10, 10, 10, 10, 10, 10, 10, 10, 10, 10]) =
      ⟨.val 0, ["oversold"]⟩ ∧
    wilderRsi [10, 20, 10, 10, 10, 10, 10, 10, 10, 10, 10, 10, 10, 10, 10, 10] =
      some 50 := by
  constructor
  · unfold calc_rsi deltasOf gainPart lossPart
    norm_num
  · unfold wilderRsi deltasOf gainPart lossPart
    norm_num

/-- C8 (amended): `calc_rsi` computes RSI over a 14-period window using
*simple* rolling means of gains and losses (Cutler's RSI) — not Wilder's
smoothed averages — and for every series of length ≥ 15 it emits
`oversold` iff the resulting RSI < 30 and `overbought` iff RSI > 70 (a
zero average loss giving RSI 100 / NaN as pandas division does). -/
theorem rsi_cutler_signals (closes : List ℚ) (hlen : 15 ≤ closes.length) :
    (cutlerAvgLoss closes = 0 → cutlerAvgGain closes = 0 →
       calc_rsi (some closes) = ⟨.nan, []⟩) ∧
    (cutlerAvgLoss closes = 0 → cutlerAvgGain closes ≠ 0 →
       calc_rsi (some closes) = ⟨.val 100, ["overbought"]⟩) ∧
    (cutlerAvgLoss closes ≠ 0 →
       (calc_rsi (some closes)).rsi =
         .val (100 - 100 / (1 + cutlerAvgGain closes / cutlerAvgLoss closes)) ∧
       ((calc_rsi (some closes)).signals = ["oversold"] ↔
         100 - 100 / (1 + cutlerAvgGain closes / cutlerAvgLoss closes) < 30) ∧
       ((calc_rsi (some closes)).signals = ["overbought"] ↔
         70 < 100 - 100 / (1 + cutlerAvgGain closes / cutlerAvgLoss closes)) ∧
       ((calc_rsi (some closes)).signals = [] ↔
         (30 ≤ 100 - 100 / (1 + cutlerAvgGain closes / cutlerAvgLoss closes) ∧
          100 - 100 / (1 + cutlerAvgGain closes / cutlerAvgLoss closes) ≤ 70))) := by
  have hguard : ¬ closes.length < 15 := by omega
  have hag : ((((deltasOf closes).drop ((deltasOf closes).length - 14)).map gainPart).sum / 14 : ℚ) =
      cutlerAvgGain closes := by
    unfold cutlerAvgGain
    rw [cutler_last14 closes hlen]
  have hal : ((((deltasOf closes).drop ((deltasOf closes).length - 14)).map lossPart).sum / 14 : ℚ) =
      cutlerAvgLoss closes := by
    unfold cutlerAvgLoss
    rw [cutler_last14 closes hlen]
  have hcalc : calc_rsi (some closes) =
      (if cutlerAvgLoss closes = 0 then
        (if cutlerAvgGain closes = 0 then ⟨.nan, []⟩
         else ⟨.val 100, ["overbought"]⟩)
       else
        ⟨.val (100 - 100 / (1 + cutlerAvgGain closes / cutlerAvgLoss closes)),
          if 100 - 100 / (1 + cutlerAvgGain closes / cutlerAvgLoss closes) < 30 then
            ["oversold"]
          else if 70 < 100 - 100 / (1 + cutlerAvgGain closes / cutlerAvgLoss closes) then
            ["overbought"]
          else []⟩ : RsiOut) := by
    unfold calc_rsi
    dsimp only
    rw [if_neg hguard, hag, hal]
  refine ⟨?_, ?_, ?_⟩
  · intro hl hg
    rw [hcalc, if_pos hl, if_pos hg]
  · intro hl hg
    rw [hcalc, if_pos hl, if_neg hg]
  · intro hl
    rw [hcalc, if_neg hl]
    refine ⟨rfl, ?_, ?_, ?_⟩
    · by_cases h30 : 100 - 100 / (1 + cutlerAvgGain closes / cutlerAvgLoss closes) < 30
      · simp [h30]
      · simp only [if_neg h30]
        constructor
        · intro hcon
          split_ifs at hcon
          simp_all
        · intro hcon
          exact absurd hcon h30
    · by_cases h30 : 100 - 100 / (1 + cutlerAvgGain closes / cutlerAvgLoss closes) < 30
      · simp only [if_pos h30]
        constructor
        · intro hcon
          simp at hcon
        · intro hcon
          linarith
      · by_cases h70 : 70 < 100 - 100 / (1 + cutlerAvgGain closes / cutlerAvgLoss closes)
        · simp [h30, h70]
        · simp [h30, h70]
    · by_cases h30 : 100 - 100 / (1 + cutlerAvgGain closes / cutlerAvgLoss closes) < 30
      · simp only [if_pos h30]
        constructor
        · intro hcon
          simp at hcon
        · intro hcon
          linarith [hcon.1]
      · by_cases h70 : 70 < 100 - 100 / (1 + cutlerAvgGain closes / cutlerAvgLoss closes)
        · simp only [if_neg h30, if_pos h70]
          constructor
          · intro hcon
            simp at hcon
          · intro hcon
            linarith [hcon.2]
        · simp only [if_neg h30, if_neg h70]
          constructor
          · intro _
            exact ⟨by linarith, by linarith⟩
          · intro _
            trivial

/-- C8 witness: the counterexample series has average loss `5/7 ≠ 0`,
RSI `0` and the `oversold` signal. -/
theorem rsi_cutler_signals_witness :
    (calc_rsi (some [10, 20, 10, 10, 10, 10, 10, 10, 10, 10, 10, 10, 10, 10, 10, 10])).rsi =
      .val (100 - 100 /
        (1 + cutlerAvgGain [10, 20, 10, 10, 10, 10, 10, 10, 10, 10, 10, 10, 10, 10, 10, 10] /
          cutlerAvgLoss [10, 20, 10, 10, 10, 10, 10, 10, 10, 10, 10, 10, 10, 10, 10, 10])) := by
  have hal : cutlerAvgLoss [10, 20, 10, 10, 10, 10, 10, 10, 10, 10, 10, 10, 10, 10, 10, 10] ≠ 0 := by
    unfold cutlerAvgLoss deltasOf lossPart
    norm_num
  exact ((rsi_cutler_signals
    [10, 20, 10, 10, 10, 10, 10, 10, 10, 10, 10, 10, 10, 10, 10, 10]
    (by norm_num)).2.2 hal).1

/-! ## C9 — `calc_ma` values and the `max(periods)` guard -/

/-- `List.lookup` on a cons cell. -/
theorem lookup_cons_eq (p : String × ℚ) (l : List (String × ℚ)) (s : String) :
    (p :: l).lookup s = if s == p.1 then some p.2 else l.lookup s := by
  rcases p with ⟨k, v⟩
  by_cases hb : (s == k) = true
  · simp [List.lookup, hb]
  · have hb' : (s == k) = false := by simpa using hb
    simp [List.lookup, hb']

/-- Overwriting an existing key, then looking it up. -/
theorem lookup_map_replace (k : String) (v : ℚ) :
    ∀ m : List (String × ℚ), m.any (fun x => decide (x.1 = k)) = true →
      (m.map (fun kv => if kv.1 = k then (k, v) else kv)).lookup k = some v := by
  intro m
  induction m with
  | nil => intro h; simp at h
  | cons p m' ih =>
      intro hany
      simp only [List.any_cons, Bool.or_eq_true] at hany
      simp only [List.map_cons]
      by_cases hp : p.1 = k
      · rw [if_pos hp, lookup_cons_eq]
        simp
      · rw [if_neg hp, lookup_cons_eq]
        have hkp : (k == p.1) = false := beq_eq_false_iff_ne.mpr (fun he => hp he.symm)
        rw [hkp]
        simp only [Bool.false_eq_true, if_false]
        apply ih
        rcases hany with h1 | h2
        · exact absurd (of_decide_eq_true h1) hp
        · exact h2

/-- Appending a fresh key, then looking it up. -/
theorem lookup_append_single (k : String) (v : ℚ) :
    ∀ m : List (String × ℚ), m.any (fun x => decide (x.1 = k)) = false →
      (m ++ [(k, v)]).lookup k = some v := by
  intro m
  induction m with
  | nil =>
      intro _
      rw [List.nil_append, lookup_cons_eq]
      simp
  | cons p m' ih =>
      intro hany
      rw [List.any_cons, Bool.or_eq_false_iff] at hany
      rw [List.cons_append, lookup_cons_eq]
      have hkp : (k == p.1) = false := by
        have hp : ¬ p.1 = k := by simpa using hany.1
        exact beq_eq_false_iff_ne.mpr (fun he => hp he.symm)
      rw [hkp]
      simp only [Bool.false_eq_true, if_false]
      exact ih hany.2

/-- Looking up the key just inserted into the values dict. -/
theorem dictInsertQ_lookup_self (k : String) (v : ℚ) (m : List (String × ℚ)) :
    (dictInsertQ m k v).lookup k = some v := by
  unfold dictInsertQ
  by_cases hany : m.any (fun x => decide (x.1 = k)) = true
  · rw [if_pos hany]
    exact lookup_map_replace k v m hany
  · rw [if_neg hany]
    have hany' : m.any (fun x => decide (x.1 = k)) = false := by
      cases h : m.any (fun x => decide (x.1 = k)) with
      | true => exact absurd h hany
      | false => rfl
    exact lookup_append_single k v m hany'

/-- Overwriting one key leaves other lookups unchanged. -/
theorem lookup_map_replace_ne (k : String) (v : ℚ) (s : String) (hne : s ≠ k) :
    ∀ m : List (String × ℚ),
      (m.map (fun kv => if kv.1 = k then (k, v) else kv)).lookup s = m.lookup s := by
  have hsk : (s == k) = false := beq_eq_false_iff_ne.mpr hne
  intro m
  induction m with
  | nil => rfl
  | cons p m' ih =>
      simp only [List.map_cons]
      by_cases hp : p.1 = k
      · rw [if_pos hp, lookup_cons_eq, lookup_cons_eq, hp]
        simp only [hsk, Bool.false_eq_true, if_false]
        exact ih
      · rw [if_neg hp, lookup_cons_eq, lookup_cons_eq, ih]

/-- Appending one key leaves other lookups unchanged. -/
theorem lookup_append_single_ne (k : String) (v : ℚ) (s : String) (hne : s ≠ k) :
    ∀ m : List (String × ℚ), (m ++ [(k, v)]).lookup s = m.lookup s := by
  have hsk : (s == k) = false := beq_eq_false_iff_ne.mpr hne
  intro m
  induction m with
  | nil =>
      rw [List.nil_append, lookup_cons_eq]
      simp [hsk, List.lookup]
  | cons p m' ih =>
      rw [List.cons_append, lookup_cons_eq, lookup_cons_eq, ih]

/-- Dict insertion leaves other keys' lookups unchanged. -/
theorem dictInsertQ_lookup_ne (k : String) (v : ℚ) (s : String) (hne : s ≠ k)
    (m : List (String × ℚ)) :
    (dictInsertQ m k v).lookup s = m.lookup s := by
  unfold dictInsertQ
  split
  · exact lookup_map_replace_ne k v s hne m
  · exact lookup_append_single_ne k v s hne m

/-- The values fold does not touch keys outside its period list. -/
theorem maFold_lookup_notmem (closes : List ℚ) (s : String) :
    ∀ (ps : List ℕ) (acc : List (String × ℚ)),
      (∀ k ∈ ps, s ≠ "MA" ++ toString k) →
      (ps.foldl (fun acc k => if k ≤ closes.length then
          dictInsertQ acc ("MA" ++ toString k) (pyRound2 (meanLast closes k))
        else acc) acc).lookup s = acc.lookup s := by
  intro ps
  induction ps with
  | nil => intro acc _; rfl
  | cons k0 rest ih =>
      intro acc hs
      simp only [List.foldl_cons]
      rw [ih _ (fun k hk => hs k (List.mem_cons_of_mem _ hk))]
      by_cases hk0 : k0 ≤ closes.length
      · rw [if_pos hk0,
          dictInsertQ_lookup_ne _ _ _ (hs k0 (List.mem_cons_self _ _)) acc]
      · rw [if_neg hk0]

/-- The values fold stores the rounded last-k mean for every listed
period (periods with distinct names, all within the series length). -/
theorem maFold_lookup_mem (closes : List ℚ) :
    ∀ (ps : List ℕ) (acc : List (String × ℚ)),
      (∀ k ∈ ps, k ≤ closes.length) →
      ((ps.map (fun k => "MA" ++ toString k)).Nodup) →
      ∀ k ∈ ps,
        (ps.foldl (fun acc k => if k ≤ closes.length then
            dictInsertQ acc ("MA" ++ toString k) (pyRound2 (meanLast closes k))
          else acc) acc).lookup ("MA" ++ toString k) =
          some (pyRound2 (meanLast closes k)) := by
  intro ps
  induction ps with
  | nil => intro acc _ _ k hk; simp at hk
  | cons k0 rest ih =>
      intro acc hle hnd k hk
      simp only [List.map_cons, List.nodup_cons] at hnd
      simp only [List.foldl_cons]
      rw [if_pos (hle k0 (List.mem_cons_self _ _))]
      rcases List.mem_cons.mp hk with rfl | hkrest
      · have hnot : ∀ j ∈ rest, ("MA" ++ toString k) ≠ "MA" ++ toString j := by
          intro j hj heq
          exact hnd.1 (List.mem_map.mpr ⟨j, hj, heq.symm⟩)
        rw [maFold_lookup_notmem closes _ rest _ hnot]
        exact dictInsertQ_lookup_self _ _ _
      · exact ih _ (fun j hj => hle j (List.mem_cons_of_mem _ hj)) hnd.2 k hkrest

/-- C9 (amended): `calc_ma` returns a value for every period `k` —
the rounded mean of the last `k` closes — when the series length is at
least `max(periods)`; when the length is below `max(periods)` it
returns empty values and empty signals (never an error), even for
periods `k ≤ length`.  The period names `MA<k>` are assumed pairwise
distinct, which holds for distinct periods. -/
theorem calc_ma_values (closes : List ℚ) (periods : List ℕ) (m : ℕ)
    (hmax : periods.max? = some m)
    (hnames : (periods.map (fun k => "MA" ++ toString k)).Nodup) :
    (closes.length < m →
      calc_ma (some closes) periods = .ok { values := [], signals := [] }) ∧
    (m ≤ closes.length →
      ∃ out, calc_ma (some closes) periods = .ok out ∧
        ∀ k ∈ periods,
          out.values.lookup ("MA" ++ toString k) =
            some (pyRound2 (maLastMean closes k))) := by
  constructor
  · intro hlt
    unfold calc_ma
    rw [hmax]
    dsimp only
    rw [if_pos hlt]
  · intro hle
    unfold calc_ma
    rw [hmax]
    dsimp only
    rw [if_neg (by omega)]
    refine ⟨_, rfl, ?_⟩
    intro k hk
    have hmean : pyRound2 (maLastMean closes k) = pyRound2 (meanLast closes k) := rfl
    rw [hmean]
    apply maFold_lookup_mem closes periods []
    · intro j hj
      have hjm : j ≤ m := (List.max?_eq_some_iff'.mp hmax).2 j hj
      omega
    · exact hnames
    · exact hk

/-- C9 counterexample: closes `[1,2,3,4,5]` (length 5 ≥ 5) with
`periods = [5, 10]`: the claim promises a value for MA5, but the
`len(df) < max(periods)` guard returns empty values. -/
theorem calc_ma_max_guard_counterexample :
    calc_ma (some [1, 2, 3, 4, 5]) [5, 10] = .ok { values := [], signals := [] } ∧
    ([(1 : ℚ), 2, 3, 4, 5]).length = 5 := by
  constructor
  · rfl
  · rfl

/-- C9 witness: closes `[10,…,14]` with `periods = [5]` stores
`MA5 = 12`. -/
theorem calc_ma_values_witness :
    ∃ out, calc_ma (some [10, 11, 12, 13, 14]) [5] = .ok out ∧
      out.values.lookup "MA5" = some 12 := by
  have h := (calc_ma_values [10, 11, 12, 13, 14] [5] 5 (by decide) (by decide)).2
    (by norm_num)
  obtain ⟨out, hout, hlook⟩ := h
  refine ⟨out, hout, ?_⟩
  have h5 := hlook 5 (by decide)
  have hmean : maLastMean [10, 11, 12, 13, 14] 5 = 12 := by
    unfold maLastMean
    norm_num
  have h12 : pyRound2 (12 : ℚ) = 12 := by
    unfold pyRound2 pyRound roundHalfEven
    norm_num [round_eq]
  rw [hmean, h12] at h5
  exact h5

/-! ## C10 — `ma_results` key set -/

/-- With a non-zero period the MA loop body never raises, and an
absent price or close series leaves the default entry. -/
theorem computeMAResult_ok (cp? : Option ℚ) (closes? : Option (List ℚ))
    (k : ℕ) (hk : k ≠ 0) :
    ∃ r, computeMAResult cp? closes? k = .ok r ∧
      ((cp? = none ∨ closes? = none) → r = ({} : MAResult)) := by
  unfold computeMAResult
  cases cp? with
  | none => exact ⟨{}, rfl, fun _ => rfl⟩
  | some cp =>
      cases closes? with
      | none => exact ⟨{}, rfl, fun _ => rfl⟩
      | some closes =>
          dsimp only
          by_cases h1 : closes ≠ [] ∧ k ≤ closes.length
          · rw [if_pos h1]
            by_cases h2 : k ≤ (lastSlice closes k).length
            · rw [if_pos h2, if_neg hk]
              by_cases h4 : 0 < pyRound2 ((lastSlice closes k).sum / k)
              · rw [if_pos h4]
                refine ⟨_, rfl, ?_⟩
                rintro (h | h) <;> simp at h
              · rw [if_neg h4]
                refine ⟨_, rfl, ?_⟩
                rintro (h | h) <;> simp at h
            · rw [if_neg h2]
              refine ⟨_, rfl, ?_⟩
              rintro (h | h) <;> simp at h
          · rw [if_neg h1]
            refine ⟨_, rfl, ?_⟩
            rintro (h | h) <;> simp at h

/-- The key set after a dict insertion. -/
theorem dictInsert_keys (m : List (String × MAResult)) (k : String)
    (v : MAResult) (s : String) :
    s ∈ (dictInsert m k v).map Prod.fst ↔ (s ∈ m.map Prod.fst ∨ s = k) := by
  unfold dictInsert
  split
  · rename_i hany
    have hfst : (m.map (fun kv => if kv.1 = k then (k, v) else kv)).map Prod.fst =
        m.map Prod.fst := by
      rw [List.map_map]
      apply List.map_congr_left
      intro kv _
      by_cases h : kv.1 = k
      · simp [h]
      · simp [h]
    rw [hfst]
    constructor
    · exact Or.inl
    · rintro (h | rfl)
      · exact h
      · obtain ⟨x, hx, hxk⟩ := List.any_eq_true.mp hany
        exact List.mem_map.mpr ⟨x, hx, of_decide_eq_true hxk⟩
  · simp [List.map_append]

/-- Inserting the common value keeps every value equal to it. -/
theorem dictInsert_snd (m : List (String × MAResult)) (k : String)
    (v : MAResult) (hm : ∀ p ∈ m, p.2 = v) :
    ∀ p ∈ dictInsert m k v, p.2 = v := by
  unfold dictInsert
  split
  · intro p hp
    obtain ⟨q, hq, hqe⟩ := List.mem_map.mp hp
    by_cases h : q.1 = k
    · rw [if_pos h] at hqe
      rw [← hqe]
    · rw [if_neg h] at hqe
      rw [← hqe]
      exact hm q hq
  · intro p hp
    rcases List.mem_append.mp hp with h | h
    · exact hm p h
    · simp at h
      rw [h]

/-- The MA loop over the tokens: result, key set, and the default
values under missing data. -/
theorem enrichGo_spec (cp? : Option ℚ) (closes? : Option (List ℚ)) :
    ∀ (ts : List String) (acc : List (String × MAResult)),
      (∀ t ∈ ts, ∃ k, firstDigitNat t = some k ∧ k ≠ 0) →
      ∃ mres, enrichMaResultsGo cp? closes? ts acc = .ok mres ∧
        (∀ s, s ∈ mres.map Prod.fst ↔ (s ∈ acc.map Prod.fst ∨ s ∈ ts)) ∧
        (((cp? = none ∨ closes? = none) ∧ (∀ p ∈ acc, p.2 = ({} : MAResult))) →
          ∀ p ∈ mres, p.2 = ({} : MAResult)) := by
  intro ts
  induction ts with
  | nil =>
      intro acc _
      exact ⟨acc, rfl, fun s => by simp, fun h => h.2⟩
  | cons t rest ih =>
      intro acc hdig
      obtain ⟨k, hkeq, hk0⟩ := hdig t (List.mem_cons_self _ _)
      obtain ⟨r, hreq, hrdef⟩ := computeMAResult_ok cp? closes? k hk0
      have hstep : enrichMaResultsGo cp? closes? (t :: rest) acc =
          enrichMaResultsGo cp? closes? rest (dictInsert acc t r) := by
        simp only [enrichMaResultsGo, hkeq]
        rw [hreq]
        rfl
      obtain ⟨mres, hgo, hkeys, hdef⟩ :=
        ih (dictInsert acc t r) (fun u hu => hdig u (List.mem_cons_of_mem _ hu))
      refine ⟨mres, hstep ▸ hgo, ?_, ?_⟩
      · intro s
        rw [hkeys s, dictInsert_keys acc t r s]
        simp only [List.mem_cons]
        tauto
      · rintro ⟨hn, hacc⟩
        have hr0 : r = ({} : MAResult) := hrdef hn
        subst hr0
        exact hdef ⟨hn, dictInsert_snd acc t {} hacc⟩

/-- The effective token list is never empty. -/
theorem effectiveMaTypes_ne_nil (mt? : Option String) :
    effectiveMaTypes mt? ≠ [] := by
  unfold effectiveMaTypes
  dsimp only
  split
  · simp
  · assumption

/-- C10 (amended): provided every effective token contains a digit run
with a non-zero value, `ma_results` is returned (no exception), its key
set is exactly the parsed tokens — `{"MA5"}` substituted when the string
is empty or parses to no token — it is never empty, and when the price
or the k-line data is missing every key maps to the default
`MAResult` (`reached_target=false`, null `ma_price`).  A token without
a digit makes the call raise instead (the counterexample) — that
proviso is the amendment. -/
theorem ma_results_keys (mt? : Option String) (cp? : Option ℚ)
    (closes? : Option (List ℚ))
    (hdigit : ∀ t ∈ effectiveMaTypes mt?, ∃ k, firstDigitNat t = some k ∧ k ≠ 0) :
    ∃ mres, enrichMaResults mt? cp? closes? = .ok mres ∧
      (∀ s, s ∈ mres.map Prod.fst ↔ s ∈ effectiveMaTypes mt?) ∧
      mres ≠ [] ∧
      ((cp? = none ∨ closes? = none) → ∀ p ∈ mres, p.2 = ({} : MAResult)) := by
  obtain ⟨mres, hgo, hkeys, hdef⟩ :=
    enrichGo_spec cp? closes? (effectiveMaTypes mt?) [] hdigit
  refine ⟨mres, hgo, ?_, ?_, ?_⟩
  · intro s
    rw [hkeys s]
    simp
  · obtain ⟨t, ht⟩ := List.exists_mem_of_ne_nil _ (effectiveMaTypes_ne_nil mt?)
    intro hnil
    have hmem := (hkeys t).mpr (Or.inr ht)
    rw [hnil] at hmem
    simp at hmem
  · intro hn
    exact hdef ⟨hn, by simp⟩

/-- C10 counterexample: `ma_types = "ABC"` parses to the non-empty
token list `["ABC"]`, and the MA loop raises `AttributeError`
(`re.search` returns `None`) instead of returning any mapping — the
claim as stated fails. -/
theorem ma_types_no_digit_counterexample :
    enrichMaResults (some "ABC") (some 10) (some [10, 10, 10, 10, 10]) =
      .error () := by
  rfl

/-- C10 witness: `ma_types = "MA5,MA10"` yields exactly the keys
`MA5` and `MA10`. -/
theorem ma_results_keys_witness :
    ∃ mres, enrichMaResults (some "MA5,MA10") (some 14)
        (some [10, 11, 12, 13, 14]) = .ok mres ∧
      "MA5" ∈ mres.map Prod.fst ∧ "MA10" ∈ mres.map Prod.fst ∧ mres ≠ [] := by
  have heff : effectiveMaTypes (some "MA5,MA10") = ["MA5", "MA10"] := rfl
  obtain ⟨mres, hok, hkeys, hne, _⟩ :=
    ma_results_keys (some "MA5,MA10") (some 14) (some [10, 11, 12, 13, 14])
      (by
        intro t ht
        rw [heff] at ht
        simp only [List.mem_cons, List.mem_singleton] at ht
        rcases ht with rfl | rfl | hf
        · exact ⟨5, rfl, by norm_num⟩
        · exact ⟨10, rfl, by norm_num⟩
        · simp at hf)
  refine ⟨mres, hok, ?_, ?_, hne⟩
  · exact (hkeys "MA5").mpr (by rw [heff]; simp)
  · exact (hkeys "MA10").mpr (by rw [heff]; simp)

end StockWatcher
